import Mathlib

/-!
Verification of the twitch_services bridge core.

Shallow embedding of `main.py`, `director_bridge.py` and `twitch_client.py`:
pure transforms become Lean functions on `List Char` / `String`, the stateful
connection loops become explicit step functions on their counter state, and
Python exceptions become `Except` values.
-/

namespace TwitchService

/-- Python `\s` on ASCII text: space, tab, newline, carriage return,
vertical tab, form feed. -/
def isSpaceCh (c : Char) : Bool :=
  c == ' ' || c == '\t' || c == '\n' || c == '\r' || c == '\x0b' || c == '\x0c'

/-- Python `[A-Za-z]`. -/
def isAlphaCh (c : Char) : Bool :=
  ('A' ≤ c && c ≤ 'Z') || ('a' ≤ c && c ≤ 'z')

/-- The punctuation class `[,.!?;:]` of `main.py` line 22. -/
def isPunctCh (c : Char) : Bool :=
  c == ',' || c == '.' || c == '!' || c == '?' || c == ';' || c == ':'

/-- `re.sub(r"\*[A-Za-z]+\*", "", text)` (main.py line 20), as a left-to-right
scan. The first argument is the matcher state: `none` when outside a candidate
match, `some acc` when a `*` has been read followed by the (reversed) letters
`acc`. Matches are non-overlapping and removed; failed candidates are emitted
verbatim, exactly as the regex engine resumes after a non-match. -/
def starGo : Option (List Char) → List Char → List Char
  | none, [] => []
  | some acc, [] => '*' :: acc.reverse
  | none, c :: cs => if c == '*' then starGo (some []) cs else c :: starGo none cs
  | some acc, c :: cs =>
    if c == '*' then
      if acc.isEmpty then '*' :: starGo (some []) cs else starGo none cs
    else if isAlphaCh c then starGo (some (c :: acc)) cs
    else '*' :: (acc.reverse ++ c :: starGo none cs)

def stripStars (l : List Char) : List Char := starGo none l

/-- `re.sub(r"\s+", " ", text)` (main.py line 21): every maximal whitespace
run becomes a single space. The Bool records whether we are inside a run whose
replacement space has already been emitted. -/
def collapseGo : Bool → List Char → List Char
  | _, [] => []
  | inRun, c :: cs =>
    if isSpaceCh c then
      if inRun then collapseGo true cs else ' ' :: collapseGo true cs
    else c :: collapseGo false cs

def collapseRuns (l : List Char) : List Char := collapseGo false l

/-- Trailing part of `.strip()`: drop the maximal all-whitespace suffix. -/
def stripTrail : List Char → List Char
  | [] => []
  | c :: cs =>
    match stripTrail cs with
    | [] => if isSpaceCh c then [] else [c]
    | d :: r => c :: d :: r

/-- `.strip()` (main.py line 21). -/
def stripEnds (l : List Char) : List Char := stripTrail (l.dropWhile isSpaceCh)

/-- `re.sub(r"\s+([,.!?;:])", r"\1", text)` (main.py line 22): a whitespace
run immediately followed by one of the six punctuation marks is deleted.
`pending` holds the (reversed) whitespace run read so far but not yet decided. -/
def fixGo : List Char → List Char → List Char
  | pending, [] => pending.reverse
  | pending, c :: cs =>
    if isSpaceCh c then fixGo (c :: pending) cs
    else if isPunctCh c then c :: fixGo [] cs
    else pending.reverse ++ c :: fixGo [] cs

def fixPunct (l : List Char) : List Char := fixGo [] l

/-- `_strip_sound_effects` (main.py lines 19-23) on character lists. -/
def cleanList (l : List Char) : List Char :=
  fixPunct (stripEnds (collapseRuns (stripStars l)))

/-- `_strip_sound_effects` (main.py lines 19-23). -/
def strip_sound_effects (s : String) : String :=
  ⟨cleanList s.toList⟩

example : strip_sound_effects "Hi there *laughs* , friend !" = "Hi there, friend!" := by decide
example : strip_sound_effects "**a*b*" = "*b*" := by decide
example : strip_sound_effects "*b*" = "" := by decide
example : strip_sound_effects "[laughs] hi" = "[laughs] hi" := by decide
example : strip_sound_effects "*x *y* z*" = "*x z*" := by decide
example : strip_sound_effects " \t,a  .  !" = ",a.!" := by decide

/-! ## director_bridge.py -/

/-- Observable effects of `_safe_emit` (director_bridge.py lines 140-147):
a network emit on the socket, the not-connected drop warning, or the logged
emit error of the `except` branch. -/
inductive EmitAction
  | netWrite (event : String)
  | warnDrop (event : String)
  | logError (event : String)
deriving DecidableEq, Repr

/-- The `try` body of `_safe_emit`: if connected, `sio.emit` runs and may
raise (`emitOk = false`); otherwise only the drop warning is printed.
`.error` means an exception escapes the body. -/
def emit_body (connected emitOk : Bool) (event : String) :
    List EmitAction × Except String Unit :=
  if connected then
    if emitOk then ([.netWrite event], .ok ()) else ([], .error "emit failed")
  else ([.warnDrop event], .ok ())

/-- `_safe_emit` (director_bridge.py lines 140-147): the body wrapped in
`try/except Exception`, which logs and returns normally. The second component
is what the caller observes (`.error` would be a propagated exception). -/
def safe_emit (connected emitOk : Bool) (event : String) :
    List EmitAction × Except String Unit :=
  match emit_body connected emitOk event with
  | (acts, .ok u) => (acts, .ok u)
  | (acts, .error _) => (acts ++ [.logError event], .ok ())

/-- Metadata dict of the `event` payload (director_bridge.py lines 130-135). -/
structure ScoredMeta where
  username : String
  mentioned_bot : Bool
  message_length : Nat
  relevance : ℚ
deriving DecidableEq, Repr

/-- Payload of the `event` emission (director_bridge.py lines 127-137). -/
structure ScoredPayload where
  source_str : String
  text : String
  metadata : ScoredMeta
  username : String
deriving DecidableEq, Repr

/-- An event handed to the event-channel connector by the bridge. -/
inductive OutEvent
  | twitchMessage (username message : String)
  | scoredEvent (p : ScoredPayload)
deriving DecidableEq, Repr

def OutEvent.isRawMessage : OutEvent → Bool
  | .twitchMessage _ _ => true
  | _ => false

def OutEvent.isScored : OutEvent → Bool
  | .scoredEvent _ => true
  | _ => false

/-- `emit_twitch_message` (director_bridge.py lines 118-120): the event put
on the connector. -/
def emit_twitch_message (username message : String) : OutEvent :=
  .twitchMessage username message

/-- `emit_scored_event` (director_bridge.py lines 123-137). -/
def emit_scored_event (username message : String) (is_mention : Bool) : OutEvent :=
  .scoredEvent
    { source_str := if is_mention then "TWITCH_MENTION" else "TWITCH_CHAT"
      text := message
      metadata :=
        { username := username
          mentioned_bot := is_mention
          message_length := message.length
          relevance := 1 / 2 }
      username := username }

/-- Outcome of one iteration of the connect loop `_run_connector`
(director_bridge.py lines 74-90). -/
inductive AttemptResult
  | success
  | connError
  | unexpected
deriving DecidableEq, Repr

/-- The sleep computed after a recognized connection failure
(director_bridge.py line 82): `min(5 * failures, 30)`. -/
def backoffWait (failures : Nat) : Nat := min (5 * failures) 30

/-- One pass of the `try/except` of `_run_connector`: given the current
`failures` counter, return the new counter and the sleep performed
(in seconds), if any. Success resets the counter (line 77); a
`ConnectionError` increments it and sleeps the bounded backoff
(lines 80-87); any other exception sleeps a fixed 5 s without touching the
counter (lines 88-90). -/
def connStep : Nat → AttemptResult → Nat × Option Nat
  | _, .success => (0, none)
  | f, .connError => (f + 1, some (backoffWait (f + 1)))
  | f, .unexpected => (f, some 5)

/-- Fold `connStep` over a list of attempt outcomes, collecting the sleeps. -/
def runAttempts : Nat → List AttemptResult → Nat × List Nat
  | f, [] => (f, [])
  | f, a :: rest =>
    let s := connStep f a
    let t := runAttempts s.1 rest
    (t.1, (match s.2 with | some d => [d] | none => []) ++ t.2)

/-! ## main.py -/

/-- Substring test over character lists. -/
def hasSub (needle : List Char) : List Char → Bool
  | [] => needle.isEmpty
  | c :: cs => needle.isPrefixOf (c :: cs) || hasSub needle cs

/-- Python `str.lower()` on ASCII text, character by character. -/
def lower (s : String) : String :=
  ⟨s.toList.map Char.toLower⟩

/-- `_MENTION_RE.search` (main.py line 16): case-insensitive search for
`(nami|peepingnami)`; since `peepingnami` contains `nami`, the regex finds a
match exactly when the lowered text contains `nami`. -/
def mentionMatch (text : String) : Bool :=
  hasSub "nami".toList (lower text).toList

/-- `_handle_twitch_message` (main.py lines 36-41): the events emitted on the
event-channel connector, in emission order. -/
def handle_twitch_message (username text : String) : List OutEvent :=
  [emit_twitch_message username text,
   emit_scored_event username text (mentionMatch text)]

/-- The `bot_reply` payload (director_bridge.py line 50, main.py lines 26-33):
`data.get("reply", "")` and the truthiness of `data.get("is_censored")`. -/
structure BotReply where
  reply : String
  is_censored : Bool
deriving DecidableEq, Repr

/-- `_handle_bot_reply` (main.py lines 26-33): `some m` when `m` is forwarded
to `twitch_client.send_message`, `none` when nothing is sent. -/
def handle_bot_reply (data : BotReply) : Option String :=
  if data.reply = "" then none
  else
    let chat_msg := if data.is_censored then "*censored*" else strip_sound_effects data.reply
    if chat_msg = "" then none else some chat_msg

/-! ## twitch_client.py -/

/-- An inbound chat message as seen by `_on_message` (`msg.user.name`,
`msg.text`). -/
structure ChatMsg where
  user_name : String
  text : String
deriving DecidableEq, Repr

/-- `_on_message` (twitch_client.py lines 64-68): self-authored messages are
dropped before the callback; otherwise the registered callback (if any)
receives the message. `some msg` means the callback was invoked on `msg`. -/
def on_message (botName : String) (cbRegistered : Bool) (msg : ChatMsg) :
    Option ChatMsg :=
  if lower msg.user_name = lower botName then none
  else if cbRegistered then some msg else none

/-- Steps `_run` performs after its precondition check
(twitch_client.py lines 93-106). -/
inductive RunAction
  | reauth
  | chatStart
  | senderLoop
deriving DecidableEq, Repr

/-- `_run` (twitch_client.py lines 87-106): raises
`RuntimeError("authenticate() must be awaited before start()")` when no
credential pair is stored, else proceeds to re-authenticate, start chat and
enter the sender loop. -/
def run (auth_tokens : Option (String × String)) : Except String (List RunAction) :=
  match auth_tokens with
  | none => .error "authenticate() must be awaited before start()"
  | some _ => .ok [.reauth, .chatStart, .senderLoop]

/-- What a call to `start()` (twitch_client.py lines 121-128) produces:
`callerResult` is what the caller of `start()` observes, `spawned` is the
outcome of `_run` in the background thread. -/
structure StartOutcome where
  callerResult : Except String Unit
  spawned : Except String (List RunAction)
deriving Repr

/-- `start()` (twitch_client.py lines 121-128): spawns the thread running
`_run` and returns normally to its caller in every case. -/
def start (auth_tokens : Option (String × String)) : StartOutcome :=
  { callerResult := .ok (), spawned := run auth_tokens }

/-- One entry drained from the outbound queue by `_sender_loop`
(twitch_client.py lines 71-84): its text and whether
`chat.send_message` succeeds for it. -/
structure QueuedSend where
  text : String
  sendOk : Bool
deriving DecidableEq, Repr

/-- `_sender_loop` (twitch_client.py lines 71-84) draining the queue contents
`queue` (in arrival order): the list of messages actually delivered, in
delivery order. Entries are taken one at a time in FIFO order; a send is
attempted only when the chat client exists (`chatReady`), and a send failure
is logged and the loop continues with the next entry. -/
def sender_loop (chatReady : Bool) : List QueuedSend → List String
  | [] => []
  | q :: rest =>
    (if chatReady && q.sendOk then [q.text] else []) ++ sender_loop chatReady rest

/-! ## Normal forms of cleaned text

Predicates describing the shape of `_strip_sound_effects` output, used to
settle the idempotence and normalization claims. -/

/-- Every whitespace character is a plain space and no two adjacent
characters are both whitespace. -/
def wsNorm : List Char → Bool
  | [] => true
  | [c] => !isSpaceCh c || c == ' '
  | c :: d :: cs => (!isSpaceCh c || (c == ' ' && !isSpaceCh d)) && wsNorm (d :: cs)

/-- The first character, if any, is not whitespace. -/
def headNonspace : List Char → Bool
  | [] => true
  | c :: _ => !isSpaceCh c

/-- The last character, if any, is not whitespace. -/
def lastNonspace : List Char → Bool
  | [] => true
  | [c] => !isSpaceCh c
  | _ :: d :: cs => lastNonspace (d :: cs)

/-- No whitespace character immediately precedes one of `, . ! ? ; :`. -/
def noSpacePunct : List Char → Bool
  | c :: d :: cs => !(isSpaceCh c && isPunctCh d) && noSpacePunct (d :: cs)
  | _ => true

/-! ## Supporting lemmas -/

theorem runAttempts_replicate_connError (f n : Nat) :
    runAttempts f (List.replicate n .connError) =
      (f + n, (List.range n).map (fun i => min (5 * (f + i + 1)) 30)) := by
  induction n generalizing f with
  | zero => simp [runAttempts]
  | succ n ih =>
    rw [List.replicate_succ]
    simp only [runAttempts, connStep, backoffWait]
    rw [ih (f + 1), List.range_succ_eq_map]
    simp only [List.map_cons, List.map_map, List.singleton_append, Prod.mk.injEq,
      List.cons.injEq, Nat.add_zero]
    refine ⟨by omega, trivial, ?_⟩
    apply List.map_congr_left
    intro i _
    simp only [Function.comp_apply, Nat.succ_eq_add_one]
    congr 1
    omega

theorem sender_loop_true_eq (queue : List QueuedSend) :
    sender_loop true queue = (queue.filter (fun q => q.sendOk)).map (fun q => q.text) := by
  induction queue with
  | nil => rfl
  | cons q rest ih =>
    by_cases h : q.sendOk
    · simp [sender_loop, List.filter_cons, h, ih]
    · simp only [Bool.not_eq_true] at h
      simp [sender_loop, List.filter_cons, h, ih]

theorem wsNorm_tail {c : Char} {l : List Char} (h : wsNorm (c :: l) = true) :
    wsNorm l = true := by
  cases l with
  | nil => rfl
  | cons d cs =>
    simp only [wsNorm, Bool.and_eq_true] at h
    exact h.2

theorem wsNorm_cons_nonspace {c : Char} (l : List Char) (hc : isSpaceCh c = false) :
    wsNorm (c :: l) = wsNorm l := by
  cases l with
  | nil => simp [wsNorm, hc]
  | cons d cs => simp [wsNorm, hc]

theorem wsNorm_space_elim {c d : Char} {l : List Char} (hc : isSpaceCh c = true)
    (h : wsNorm (c :: d :: l) = true) : c = ' ' ∧ isSpaceCh d = false := by
  simp only [wsNorm, Bool.and_eq_true, Bool.or_eq_true, Bool.not_eq_true',
    beq_iff_eq] at h
  rcases h.1 with h1 | h1
  · rw [hc] at h1
    cases h1
  · exact ⟨h1.1, h1.2⟩

theorem wsNorm_space_cons {l : List Char} (hh : headNonspace l = true)
    (hw : wsNorm l = true) : wsNorm (' ' :: l) = true := by
  cases l with
  | nil => decide
  | cons d ds =>
    have hd : isSpaceCh d = false := by simpa [headNonspace] using hh
    simp [wsNorm, hd, hw]

theorem lastNonspace_tail {d : Char} {l : List Char} (h : lastNonspace (d :: l) = true) :
    lastNonspace l = true := by
  cases l with
  | nil => rfl
  | cons e cs => exact h

theorem lastNonspace_cons {d : Char} {l : List Char} (hd : isSpaceCh d = false)
    (h : lastNonspace l = true) : lastNonspace (d :: l) = true := by
  cases l with
  | nil => simp [lastNonspace, hd]
  | cons e cs => exact h

theorem noSpacePunct_tail {c : Char} {l : List Char} (h : noSpacePunct (c :: l) = true) :
    noSpacePunct l = true := by
  cases l with
  | nil => rfl
  | cons d cs =>
    simp only [noSpacePunct, Bool.and_eq_true] at h
    exact h.2

theorem noSpacePunct_cons_nonspace {c : Char} (l : List Char) (hc : isSpaceCh c = false) :
    noSpacePunct (c :: l) = noSpacePunct l := by
  cases l with
  | nil => rfl
  | cons d cs => simp [noSpacePunct, hc]

theorem noSpacePunct_cons_nonpunct {c d : Char} {l : List Char} (hd : isPunctCh d = false)
    (h : noSpacePunct (d :: l) = true) : noSpacePunct (c :: d :: l) = true := by
  simp [noSpacePunct, hd, h]

theorem noSpacePunct_space_elim {c d : Char} {l : List Char} (hc : isSpaceCh c = true)
    (h : noSpacePunct (c :: d :: l) = true) : isPunctCh d = false := by
  simp only [noSpacePunct, Bool.and_eq_true, Bool.not_eq_true'] at h
  have h1 := h.1
  rw [hc, Bool.true_and] at h1
  exact h1

theorem collapseGo_true_head (l : List Char) : headNonspace (collapseGo true l) = true := by
  induction l with
  | nil => rfl
  | cons c cs ih =>
    cases hc : isSpaceCh c with
    | true => simpa [collapseGo, hc] using ih
    | false => simp [collapseGo, hc, headNonspace]

theorem collapseGo_wsNorm (l : List Char) : ∀ b, wsNorm (collapseGo b l) = true := by
  induction l with
  | nil => intro b; rfl
  | cons c cs ih =>
    intro b
    cases hc : isSpaceCh c with
    | true =>
      cases b with
      | true => simpa [collapseGo, hc] using ih true
      | false =>
        have : collapseGo false (c :: cs) = ' ' :: collapseGo true cs := by
          simp [collapseGo, hc]
        rw [this]
        exact wsNorm_space_cons (collapseGo_true_head cs) (ih true)
    | false =>
      have : collapseGo b (c :: cs) = c :: collapseGo false cs := by
        simp [collapseGo, hc]
      rw [this, wsNorm_cons_nonspace _ hc]
      exact ih false

theorem dropWhile_headNonspace (l : List Char) :
    headNonspace (l.dropWhile isSpaceCh) = true := by
  induction l with
  | nil => rfl
  | cons c cs ih =>
    cases hc : isSpaceCh c with
    | true => simpa [List.dropWhile_cons, hc] using ih
    | false => simp [List.dropWhile_cons, hc, headNonspace]

theorem wsNorm_dropWhile {l : List Char} (h : wsNorm l = true) :
    wsNorm (l.dropWhile isSpaceCh) = true := by
  induction l with
  | nil => exact h
  | cons c cs ih =>
    cases hc : isSpaceCh c with
    | true =>
      rw [List.dropWhile_cons, if_pos hc]
      exact ih (wsNorm_tail h)
    | false =>
      rw [List.dropWhile_cons, if_neg (by simp [hc])]
      exact h

theorem stripTrail_prefix (l : List Char) : stripTrail l <+: l := by
  induction l with
  | nil => exact List.prefix_refl []
  | cons c cs ih =>
    cases h : stripTrail cs with
    | nil =>
      cases hc : isSpaceCh c with
      | true => simp [stripTrail, h, hc]
      | false => simp [stripTrail, h, hc]
    | cons d r =>
      rw [h] at ih
      simp only [stripTrail, h]
      exact (List.cons_prefix_cons).mpr ⟨rfl, ih⟩

theorem stripTrail_lastNonspace (l : List Char) : lastNonspace (stripTrail l) = true := by
  induction l with
  | nil => rfl
  | cons c cs ih =>
    cases h : stripTrail cs with
    | nil =>
      cases hc : isSpaceCh c with
      | true => simp [stripTrail, h, hc, lastNonspace]
      | false => simp [stripTrail, h, hc, lastNonspace]
    | cons d r =>
      rw [h] at ih
      simp only [stripTrail, h]
      simpa [lastNonspace] using ih

theorem stripTrail_headNonspace {l : List Char} (h : headNonspace l = true) :
    headNonspace (stripTrail l) = true := by
  cases l with
  | nil => rfl
  | cons c cs =>
    have hc : isSpaceCh c = false := by simpa [headNonspace] using h
    cases hst : stripTrail cs with
    | nil => simp [stripTrail, hst, hc, headNonspace]
    | cons d r => simp [stripTrail, hst, headNonspace, hc]

theorem wsNorm_append_left : ∀ {l t : List Char}, wsNorm (l ++ t) = true → wsNorm l = true
  | [], _, _ => rfl
  | [c], t, h => by
    cases t with
    | nil => simpa using h
    | cons d ds =>
      simp only [List.cons_append, List.nil_append, wsNorm, Bool.and_eq_true,
        Bool.or_eq_true] at h
      simp only [wsNorm, Bool.or_eq_true, Bool.and_eq_true]
      tauto
  | c :: d :: rest, t, h => by
    simp only [List.cons_append, wsNorm, Bool.and_eq_true] at h
    simp only [wsNorm, Bool.and_eq_true]
    exact ⟨h.1, wsNorm_append_left h.2⟩

theorem wsNorm_stripTrail {l : List Char} (h : wsNorm l = true) :
    wsNorm (stripTrail l) = true := by
  obtain ⟨t, ht⟩ := stripTrail_prefix l
  rw [← ht] at h
  exact wsNorm_append_left h

theorem collapseGo_cons_nonspace {c : Char} (b : Bool) (cs : List Char)
    (hc : isSpaceCh c = false) : collapseGo b (c :: cs) = c :: collapseGo false cs := by
  simp [collapseGo, hc]

theorem stripTrail_cons (c : Char) (cs : List Char) :
    stripTrail (c :: cs) =
      match stripTrail cs with
      | [] => if isSpaceCh c then [] else [c]
      | d :: r => c :: d :: r := rfl

theorem fixGo_cons_punct {c : Char} (p cs : List Char) (hc : isSpaceCh c = false)
    (hp : isPunctCh c = true) : fixGo p (c :: cs) = c :: fixGo [] cs := by
  simp [fixGo, hc, hp]

theorem fixGo_nil_cons_other {c : Char} (cs : List Char) (hc : isSpaceCh c = false)
    (hp : isPunctCh c = false) : fixGo [] (c :: cs) = c :: fixGo [] cs := by
  simp [fixGo, hc, hp]

theorem collapseGo_id : ∀ l, wsNorm l = true → collapseGo false l = l
  | [], _ => rfl
  | [c], h => by
    cases hc : isSpaceCh c with
    | true =>
      have hce : c = ' ' := by
        simp only [wsNorm, Bool.or_eq_true, Bool.not_eq_true', beq_iff_eq] at h
        rcases h with h1 | h1
        · rw [hc] at h1; cases h1
        · exact h1
      subst hce
      simp [collapseGo, hc]
    | false => simp [collapseGo, hc]
  | c :: d :: cs, h => by
    cases hc : isSpaceCh c with
    | true =>
      obtain ⟨hce, hd⟩ := wsNorm_space_elim hc h
      have ih := collapseGo_id cs (wsNorm_tail (wsNorm_tail h))
      subst hce
      simp [collapseGo, hc, hd, ih]
    | false =>
      have ih := collapseGo_id (d :: cs) (wsNorm_tail h)
      rw [collapseGo_cons_nonspace false (d :: cs) hc, ih]

theorem dropWhile_id_of_head {l : List Char} (h : headNonspace l = true) :
    l.dropWhile isSpaceCh = l := by
  cases l with
  | nil => rfl
  | cons c cs =>
    have hc : isSpaceCh c = false := by simpa [headNonspace] using h
    rw [List.dropWhile_cons, if_neg (by simp [hc])]

theorem stripTrail_id : ∀ l, lastNonspace l = true → stripTrail l = l
  | [], _ => rfl
  | [c], h => by
    have hc : isSpaceCh c = false := by simpa [lastNonspace] using h
    simp [stripTrail, hc]
  | c :: d :: cs, h => by
    have ih := stripTrail_id (d :: cs) (by simpa [lastNonspace] using h)
    rw [stripTrail_cons, ih]

theorem fixGo_id : ∀ l, wsNorm l = true → noSpacePunct l = true → fixGo [] l = l
  | [], _, _ => rfl
  | [c], _, _ => by
    cases hc : isSpaceCh c with
    | true => simp [fixGo, hc]
    | false =>
      cases hp : isPunctCh c with
      | true => simp [fixGo, hc, hp]
      | false => simp [fixGo, hc, hp]
  | c :: d :: cs, hw, hn => by
    cases hc : isSpaceCh c with
    | true =>
      obtain ⟨hce, hd⟩ := wsNorm_space_elim hc hw
      have hdp : isPunctCh d = false := noSpacePunct_space_elim hc hn
      have ih := fixGo_id cs (wsNorm_tail (wsNorm_tail hw)) (noSpacePunct_tail (noSpacePunct_tail hn))
      simp [fixGo, hc, hd, hdp, ih]
    | false =>
      have ih := fixGo_id (d :: cs) (wsNorm_tail hw) (noSpacePunct_tail hn)
      cases hp : isPunctCh c with
      | true => rw [fixGo_cons_punct [] (d :: cs) hc hp, ih]
      | false => rw [fixGo_nil_cons_other (d :: cs) hc hp, ih]

theorem fixGo_norm : ∀ l, wsNorm l = true → lastNonspace l = true →
    wsNorm (fixGo [] l) = true ∧ lastNonspace (fixGo [] l) = true ∧
    noSpacePunct (fixGo [] l) = true ∧
    (headNonspace l = true → headNonspace (fixGo [] l) = true) ∧
    (fixGo [] l = [] ↔ l = [])
  | [], _, _ => ⟨rfl, rfl, rfl, fun _ => rfl, Iff.rfl⟩
  | [c], _, hl => by
    have hc : isSpaceCh c = false := by simpa [lastNonspace] using hl
    have hfix : fixGo [] [c] = [c] := by
      cases hp : isPunctCh c with
      | true => simp [fixGo, hc, hp]
      | false => simp [fixGo, hc, hp]
    rw [hfix]
    exact ⟨by simp [wsNorm, hc], by simp [lastNonspace, hc], rfl,
      fun _ => by simp [headNonspace, hc], by simp⟩
  | c :: d :: cs, hw, hl => by
    have hl2 : lastNonspace (d :: cs) = true := hl
    cases hc : isSpaceCh c with
    | true =>
      obtain ⟨hce, hd⟩ := wsNorm_space_elim hc hw
      obtain ⟨W, L, N, _, _⟩ :=
        fixGo_norm cs (wsNorm_tail (wsNorm_tail hw)) (lastNonspace_tail hl2)
      cases hp : isPunctCh d with
      | true =>
        have hfix : fixGo [] (c :: d :: cs) = d :: fixGo [] cs := by
          simp [fixGo, hc, hd, hp]
        rw [hfix]
        refine ⟨?_, ?_, ?_, ?_, by simp⟩
        · rw [wsNorm_cons_nonspace _ hd]; exact W
        · exact lastNonspace_cons hd L
        · rw [noSpacePunct_cons_nonspace _ hd]; exact N
        · intro hh
          rw [headNonspace, hc] at hh
          cases hh
      | false =>
        have hfix : fixGo [] (c :: d :: cs) = c :: d :: fixGo [] cs := by
          simp [fixGo, hc, hd, hp]
        rw [hfix]
        subst hce
        refine ⟨?_, ?_, ?_, ?_, by simp⟩
        · refine wsNorm_space_cons (by simp [headNonspace, hd]) ?_
          rw [wsNorm_cons_nonspace _ hd]
          exact W
        · show lastNonspace (d :: fixGo [] cs) = true
          exact lastNonspace_cons hd L
        · refine noSpacePunct_cons_nonpunct hp ?_
          rw [noSpacePunct_cons_nonspace _ hd]
          exact N
        · intro hh
          rw [headNonspace, hc] at hh
          cases hh
    | false =>
      obtain ⟨W, L, N, _, _⟩ := fixGo_norm (d :: cs) (wsNorm_tail hw) hl2
      have hfix : fixGo [] (c :: d :: cs) = c :: fixGo [] (d :: cs) := by
        cases hp : isPunctCh c with
        | true => simp [fixGo, hc, hp]
        | false => simp [fixGo, hc, hp]
      rw [hfix]
      refine ⟨?_, ?_, ?_, ?_, by simp⟩
      · rw [wsNorm_cons_nonspace _ hc]; exact W
      · exact lastNonspace_cons hc L
      · rw [noSpacePunct_cons_nonspace _ hc]; exact N
      · intro _
        simp [headNonspace, hc]

theorem clean_props (l : List Char) :
    wsNorm (cleanList l) = true ∧ headNonspace (cleanList l) = true ∧
    lastNonspace (cleanList l) = true ∧ noSpacePunct (cleanList l) = true := by
  have h1 : wsNorm (collapseRuns (stripStars l)) = true := collapseGo_wsNorm _ false
  have h2 : wsNorm ((collapseRuns (stripStars l)).dropWhile isSpaceCh) = true :=
    wsNorm_dropWhile h1
  have h3 : headNonspace ((collapseRuns (stripStars l)).dropWhile isSpaceCh) = true :=
    dropWhile_headNonspace _
  have hw : wsNorm (stripEnds (collapseRuns (stripStars l))) = true := wsNorm_stripTrail h2
  have hh : headNonspace (stripEnds (collapseRuns (stripStars l))) = true :=
    stripTrail_headNonspace h3
  have hlast : lastNonspace (stripEnds (collapseRuns (stripStars l))) = true :=
    stripTrail_lastNonspace _
  obtain ⟨W, L, N, Hh, _⟩ := fixGo_norm (stripEnds (collapseRuns (stripStars l))) hw hlast
  exact ⟨W, Hh hh, L, N⟩

theorem clean_idem_of_fixed {l : List Char}
    (h : stripStars (cleanList l) = cleanList l) :
    cleanList (cleanList l) = cleanList l := by
  obtain ⟨W, Hh, L, N⟩ := clean_props l
  have e1 : collapseGo false (cleanList l) = cleanList l := collapseGo_id _ W
  have e2 : (cleanList l).dropWhile isSpaceCh = cleanList l := dropWhile_id_of_head Hh
  have e3 : stripTrail (cleanList l) = cleanList l := stripTrail_id _ L
  have e4 : fixGo [] (cleanList l) = cleanList l := fixGo_id _ W N
  show fixGo [] (stripTrail ((collapseGo false
      (stripStars (cleanList l))).dropWhile isSpaceCh)) = cleanList l
  rw [h, e1, e2, e3, e4]

/-! ## Claim theorems -/

/-- C1: for every inbound chat message accepted by the bridge (one reaching
the registered message callback `_handle_twitch_message`), exactly one
RawMessage (`twitch_message`) event and exactly one ScoredEvent (`event`)
are handed to the event-channel connector, and the RawMessage emission
strictly precedes the ScoredEvent emission. -/
theorem handle_emits_raw_then_scored (username text : String) :
    (handle_twitch_message username text).countP OutEvent.isRawMessage = 1 ∧
    (handle_twitch_message username text).countP OutEvent.isScored = 1 ∧
    (handle_twitch_message username text).findIdx OutEvent.isRawMessage = 0 ∧
    (handle_twitch_message username text).findIdx OutEvent.isScored = 1 :=
  ⟨rfl, rfl, rfl, rfl⟩

/-- C2 counterexample: a censored `bot_reply` whose `reply` field is the
empty string is dropped by the early-return at main.py line 28, so the fixed
placeholder is not produced, contrary to "regardless of the content of its
reply field". -/
theorem censored_empty_reply_counterexample :
    handle_bot_reply { reply := "", is_censored := true } = none ∧
    handle_bot_reply { reply := "", is_censored := true } ≠ some "*censored*" := by
  exact ⟨rfl, by decide⟩

/-- C2 amended: for every `bot_reply` payload with `is_censored` set and a
nonempty `reply`, the handler forwards exactly the fixed placeholder
`*censored*` to chat, bypassing text cleanup. -/
theorem censored_reply_placeholder (data : BotReply) (hr : data.reply ≠ "")
    (hc : data.is_censored = true) :
    handle_bot_reply data = some "*censored*" := by
  unfold handle_bot_reply
  rw [if_neg hr, hc]
  simp

/-- Witness for `censored_reply_placeholder`: a censored reply whose text
cleanup would have produced different text still yields the placeholder. -/
theorem censored_reply_placeholder_witness :
    handle_bot_reply { reply := "ok *laughs* !", is_censored := true } = some "*censored*" :=
  censored_reply_placeholder { reply := "ok *laughs* !", is_censored := true } (by decide) rfl

/-- C5: in `_run_connector`, the backoff after the N-th consecutive
recognized connection failure is `min(5*N, 30)` seconds (the sleep list for
`n` straight failures is `[min 5 30, min 10 30, ...]`); a successful
connection resets the failure counter to 0, so the next failure sleeps the
N = 1 value again; an unexpected error sleeps a fixed 5 seconds and leaves
the counter unchanged. -/
theorem connector_backoff_spec :
    (∀ n : Nat, (runAttempts 0 (List.replicate n .connError)).2 =
        (List.range n).map (fun i => min (5 * (i + 1)) 30)) ∧
    (∀ f, connStep f .success = (0, none)) ∧
    (∀ f, (runAttempts f [.success, .connError]).2 = [min (5 * 1) 30]) ∧
    (∀ f, connStep f .unexpected = (f, some 5)) := by
  refine ⟨?_, fun _ => rfl, fun _ => rfl, fun _ => rfl⟩
  intro n
  rw [runAttempts_replicate_connError]
  simp

/-- C6: `_safe_emit` while disconnected performs no network write, surfaces
the drop warning, and returns normally (no exception to the caller); the
message is not buffered or retried. -/
theorem safe_emit_disconnected (emitOk : Bool) (event : String) :
    safe_emit false emitOk event = ([.warnDrop event], .ok ()) := rfl

/-- C10: `_safe_emit` never propagates an exception: for every connection
state and emit outcome the call returns normally, and when the connector is
connected but the underlying emit raises, the error is logged and the call
still returns normally. -/
theorem safe_emit_never_raises (connected emitOk : Bool) (event : String) :
    (safe_emit connected emitOk event).2 = Except.ok () ∧
    safe_emit true false event = ([.logError event], .ok ()) := by
  refine ⟨?_, rfl⟩
  cases connected <;> cases emitOk <;> rfl

/-- C7 counterexample: `start()` called with no stored credential pair
returns normally to its caller (it only spawns the background thread), so the
call itself is not rejected with an error reported to the caller. -/
theorem start_without_auth_returns_normally :
    (start none).callerResult = Except.ok () := rfl

/-- C7 amended: the precondition is enforced inside the spawned run loop,
not at the `start()` call: without a stored credential pair `_run` fails
fast with the fatal `RuntimeError` before performing any chat action, while
the `start()` call itself returns normally to its caller. -/
theorem start_precondition_in_spawned_run :
    run none = Except.error "authenticate() must be awaited before start()" ∧
    (start none).spawned = Except.error "authenticate() must be awaited before start()" ∧
    (start none).callerResult = Except.ok () :=
  ⟨rfl, rfl, rfl⟩

/-- C8: `_on_message` discards every message whose author name
case-insensitively equals the configured bot identity before the registered
callback is reached, and invokes the registered callback on every other
message. -/
theorem on_message_self_filter (botName : String) (cbRegistered : Bool) (msg : ChatMsg) :
    (lower msg.user_name = lower botName →
      on_message botName cbRegistered msg = none) ∧
    (lower msg.user_name ≠ lower botName → cbRegistered = true →
      on_message botName cbRegistered msg = some msg) := by
  constructor
  · intro h
    simp [on_message, h]
  · intro h hc
    simp [on_message, h, hc]

/-- Witness for `on_message_self_filter`: a differently-cased self-authored
message is dropped, an ordinary viewer message is delivered. -/
theorem on_message_self_filter_witness :
    on_message "NamiBot" true { user_name := "nAmIbOt", text := "hi" } = none ∧
    on_message "NamiBot" true { user_name := "viewer", text := "hi" } =
      some { user_name := "viewer", text := "hi" } :=
  ⟨(on_message_self_filter "NamiBot" true _).1 (by decide),
   (on_message_self_filter "NamiBot" true _).2 (by decide) rfl⟩

/-- C9: `_sender_loop` drains the outbound queue strictly in arrival (FIFO)
order: the delivered messages are exactly the successfully sent entries in
queue order (an order-preserving subsequence of the enqueued texts, with no
reordering or priority), and when every send succeeds the delivered sequence
equals the enqueued sequence. -/
theorem sender_loop_fifo (queue : List QueuedSend) :
    sender_loop true queue = (queue.filter (fun q => q.sendOk)).map (fun q => q.text) ∧
    (sender_loop true queue).Sublist (queue.map (fun q => q.text)) ∧
    ((∀ q ∈ queue, q.sendOk = true) → sender_loop true queue = queue.map (fun q => q.text)) := by
  refine ⟨sender_loop_true_eq queue, ?_, ?_⟩
  · rw [sender_loop_true_eq]
    exact (List.filter_sublist queue).map _
  · intro h
    rw [sender_loop_true_eq, List.filter_eq_self.mpr h]

/-- Witness for `sender_loop_fifo`: three queued messages that all succeed
are delivered in exactly the enqueued order. -/
theorem sender_loop_fifo_witness :
    sender_loop true [⟨"a", true⟩, ⟨"b", true⟩, ⟨"c", true⟩] = ["a", "b", "c"] :=
  (sender_loop_fifo [⟨"a", true⟩, ⟨"b", true⟩, ⟨"c", true⟩]).2.2 (by decide)

/-- C3 counterexample: `_strip_sound_effects` is not idempotent. On
`"**a*b*"` the single regex pass removes only `*a*` (matches are
non-overlapping and the engine does not rescan), leaving `"*b*"`, which a
second application erases entirely. -/
theorem cleanup_not_idempotent :
    strip_sound_effects "**a*b*" = "*b*" ∧
    strip_sound_effects (strip_sound_effects "**a*b*") = "" ∧
    strip_sound_effects (strip_sound_effects "**a*b*") ≠ strip_sound_effects "**a*b*" :=
  ⟨by decide, by decide, by decide⟩

/-- C3 amended: `_strip_sound_effects` is idempotent on every string whose
cleaned form contains no further asterisk-delimited annotation (i.e. whenever
the sound-effect-stripping pass leaves the cleaned text unchanged) — the
whitespace-collapse, trim and punctuation-spacing passes are always identity
on cleaned text; and cleanup applied to
`"Hi there *laughs* , friend !"` yields `"Hi there, friend!"`. -/
theorem cleanup_conditional_idempotent :
    (∀ s : String,
      stripStars (strip_sound_effects s).toList = (strip_sound_effects s).toList →
      strip_sound_effects (strip_sound_effects s) = strip_sound_effects s) ∧
    strip_sound_effects "Hi there *laughs* , friend !" = "Hi there, friend!" := by
  constructor
  · intro s h
    show (⟨cleanList (cleanList s.toList)⟩ : String) = ⟨cleanList s.toList⟩
    exact congrArg String.mk (clean_idem_of_fixed h)
  · decide

/-- Witness for `cleanup_conditional_idempotent`: the spec's example output
is a fixed point of cleanup. -/
theorem cleanup_conditional_idempotent_witness :
    strip_sound_effects (strip_sound_effects "Hi there, friend!") =
      strip_sound_effects "Hi there, friend!" :=
  cleanup_conditional_idempotent.1 "Hi there, friend!" (by decide)

/-- C4 counterexample: bracketed annotations are not stripped —
`_strip_sound_effects` only removes `*letters*`; `"[laughs] hi"` passes
through unchanged instead of becoming `"hi"`. -/
theorem bracketed_not_stripped :
    strip_sound_effects "[laughs] hi" = "[laughs] hi" ∧
    strip_sound_effects "[laughs] hi" ≠ "hi" :=
  ⟨by decide, by decide⟩

/-- C4 amended: for every input string, `_strip_sound_effects` removes
asterisk-delimited letter-run annotations in one left-to-right pass
(bracketed annotations are not removed), and its output is fully
whitespace-normalized: every whitespace character is a single plain space
with no adjacent pair, no leading or trailing whitespace remains, and no
whitespace immediately precedes a comma, period, exclamation mark, question
mark, semicolon or colon. -/
theorem cleanup_normalizes :
    (∀ s : String,
      wsNorm (strip_sound_effects s).toList = true ∧
      headNonspace (strip_sound_effects s).toList = true ∧
      lastNonspace (strip_sound_effects s).toList = true ∧
      noSpacePunct (strip_sound_effects s).toList = true) ∧
    strip_sound_effects "go *BoOm* now" = "go now" ∧
    strip_sound_effects "[ok] x" = "[ok] x" := by
  refine ⟨fun s => clean_props s.toList, by decide, by decide⟩

end TwitchService
